import Mathlib

/-!
# Verification of the `download` subcommand (cmd/download.go)

A shallow embedding of the exercism-CLI `download` subcommand: the request
builder `newDownloadRequest`, the top-level error discrimination, and the
per-file fetch loop of `downloadCmd.Run`, with theorems settling the spec
claims about them.

Strings are Lean `String`s; local filesystem paths are modelled at the
segment level as `List String`; the filesystem is an association list from
path segments to file content. Definitions come first, theorems after.
-/

namespace Download

/- ## Go `net/url` query encoding, as used by `url.Values.Encode` -/

/-- Upper-case hexadecimal digit for `n < 16`, as the Go `url` package emits. -/
def hexDigit (n : Nat) : Char :=
  if n < 10 then Char.ofNat ('0'.toNat + n) else Char.ofNat ('A'.toNat + (n - 10))

/-- UTF-8 encoding of one character as its byte values (Go strings are UTF-8
bytes; `url.QueryEscape` percent-escapes byte by byte). -/
def utf8Bytes (c : Char) : List Nat :=
  let n := c.toNat
  if n < 0x80 then [n]
  else if n < 0x800 then [0xC0 + n / 64, 0x80 + n % 64]
  else if n < 0x10000 then [0xE0 + n / 4096, 0x80 + n / 64 % 64, 0x80 + n % 64]
  else [0xF0 + n / 262144, 0x80 + n / 4096 % 64, 0x80 + n / 64 % 64, 0x80 + n % 64]

/-- One character of the Go function `url.QueryEscape`: alphanumerics and
`-_.~` pass through, space becomes `+`, anything else is `%`-escaped per
UTF-8 byte. -/
def escapeQueryChar (c : Char) : List Char :=
  if c.isAlphanum ∨ c = '-' ∨ c = '_' ∨ c = '.' ∨ c = '~' then [c]
  else if c = ' ' then ['+']
  else ((utf8Bytes c).map (fun b => ['%', hexDigit (b / 16), hexDigit (b % 16)])).flatten

/-- The Go function `url.QueryEscape`. -/
def queryEscape (s : String) : String :=
  String.mk ((s.data.map escapeQueryChar).flatten)

/-- Lexicographic order on character lists by code point; on the ASCII keys
this program uses it coincides with the byte-lexicographic string order of
Go. -/
def listCharLe : List Char → List Char → Bool
  | [], _ => true
  | _ :: _, [] => false
  | a :: as, b :: bs =>
    if a.toNat < b.toNat then true
    else if b.toNat < a.toNat then false
    else listCharLe as bs

/-- String order used by the Go `sort.Strings` call in `url.Values.Encode`. -/
def strLe (a b : String) : Bool := listCharLe a.data b.data

/-- Insert one key/value pair into a key-sorted list (`url.Values.Encode`
sorts the parameter keys before joining). -/
def insertByKey (p : String × String) : List (String × String) → List (String × String)
  | [] => [p]
  | q :: rest => if strLe p.1 q.1 then p :: q :: rest else q :: insertByKey p rest

/-- Sort query parameters by key, as `url.Values.Encode` does. -/
def sortByKey : List (String × String) → List (String × String)
  | [] => []
  | p :: rest => insertByKey p (sortByKey rest)

/-- Join already-encoded `k=v` fragments with `&` (`strings.Join(parts, "&")`). -/
def joinAmp : List String → String
  | [] => ""
  | [s] => s
  | s :: rest => s ++ "&" ++ joinAmp rest

/-- The Go `url.Values.Encode`: sort by key, escape each value, join with `&`.
(The literal keys used by this program need no escaping.) -/
def encodeQuery (q : List (String × String)) : String :=
  joinAmp ((sortByKey q).map fun p => p.1 ++ "=" ++ queryEscape p.2)

/- ## newDownloadRequest (cmd/download.go lines 123–162) -/

/-- Modelled from the spec: `config.NewAPIConfig` and `cfg.URL("download", slug)`
live in the `config` package of the repository, which is not under src/. The
wire contract in the spec fixes the endpoint to `<configured-base>/download/<slug>`. -/
def apiDownloadURL (base slug : String) : String :=
  base ++ "/download/" ++ slug

/-- Embeds the URL construction of `newDownloadRequest` (lines 129–154):
slug is `"latest"` when `uuid` is empty, else the uuid; when `uuid` is empty
the query gains `exercise_id` and, if `track` is non-empty, `track_id`,
then `RawQuery` is set to the `Encode`d parameters. -/
def newDownloadRequestURL (base uuid track exercise : String) : String :=
  let slug := if uuid = "" then "latest" else uuid
  let url := apiDownloadURL base slug
  if uuid = "" then
    let q := ("exercise_id", exercise) ::
      (if track ≠ "" then [("track_id", track)] else [])
    url ++ "?" ++ encodeQuery q
  else
    url

/- ## Top-level response handling (cmd/download.go lines 53–66) -/

/-- The decoded `error` sub-object of the download payload
(`downloadPayload.Error`, lines 203–207). -/
structure ErrorInfo where
  errorType : String
  message : String
  possibleTrackIDs : List String
  deriving DecidableEq

/-- Observable outcome of the status check in `Run` (lines 53–66).
`exitAmbiguous code text` models printing `text` to stderr followed by
`os.Exit(code)`; `fatal code msg` models `BailOrError` — modelled from the
spec (the `Bail*` helpers are repository code not under src/): the error
message is surfaced as a fatal error and the process exits non-zero. -/
inductive TopLevelOutcome where
  | proceed
  | exitAmbiguous (exitCode : Nat) (stderrText : String)
  | fatal (exitCode : Nat) (message : String)
  deriving DecidableEq

/-- Concatenation of a sequence of emitted output pieces (the successive
`fmt.Fprintf`/`Fprintln` writes to stderr). -/
def strConcat : List String → String
  | [] => ""
  | s :: rest => s ++ strConcat rest

/-- The guidance text printed on the `track_ambiguous` branch (lines 57–61):
a header naming the exercise, the instruction line (`Fprintln` appends a
newline), then one `<binName> download <exercise> --track=<id>` fragment per
candidate id. `binName` and the exercise name shown are package-level values
(`BinName`, `solution.Exercise`) not under src/, passed here as parameters. -/
def ambiguousGuidance (binName exercise : String) (ids : List String) : String :=
  "You have multiple " ++ exercise ++ " exercises available to you.\n" ++
  "Specify the the --track flag:\n" ++
  strConcat (ids.map fun i => binName ++ " download " ++ exercise ++ " --track=" ++ i)

/-- Embeds lines 53–66 of `Run`: on a non-200 status, branch on the decoded
error type; `track_ambiguous` prints the guidance and exits 1, anything else
surfaces the error message fatally; a 200 status proceeds. -/
def handleTopLevel (statusCode : Nat) (binName exercise : String) (e : ErrorInfo) :
    TopLevelOutcome :=
  if statusCode ≠ 200 then
    if e.errorType = "track_ambiguous" then
      .exitAmbiguous 1 (ambiguousGuidance binName exercise e.possibleTrackIDs)
    else
      .fatal 1 e.message
  else
    .proceed

/-- `sub` occurs contiguously inside `s`. -/
def containsStr (s sub : String) : Prop := ∃ pre post, s = pre ++ sub ++ post

/- ## Local paths: separators, cleaning, joining -/

/-- The Go `filepath.FromSlash`: replace `/` by the local separator `sep`
(the identity when `sep` is `/`). -/
def fromSlash (sep : Char) (s : String) : String :=
  String.mk (s.data.map fun c => if c = '/' then sep else c)

/-- The Go `filepath.ToSlash`: replace the local separator `sep` by `/`. -/
def toSlash (sep : Char) (s : String) : String :=
  String.mk (s.data.map fun c => if c = sep then '/' else c)

/-- Split a character list at a separator (`strings.Split` on one character);
`cur` accumulates the current segment in reverse. -/
def splitCharAux (sep : Char) : List Char → List Char → List String
  | [], cur => [String.mk cur.reverse]
  | c :: rest, cur =>
    if c = sep then String.mk cur.reverse :: splitCharAux sep rest []
    else splitCharAux sep rest (c :: cur)

/-- The segments of a path string with separator `sep`. -/
def splitChar (sep : Char) (s : String) : List String :=
  splitCharAux sep s.data []

/-- The Go `filepath.Clean` on a rooted path, at the segment level: empty and
`.` segments are dropped, `..` pops the previous segment (and is dropped at
the root). `acc` holds the output segments in reverse. -/
def cleanSegs : List String → List String → List String
  | acc, [] => acc.reverse
  | acc, seg :: rest =>
    if seg = "" ∨ seg = "." then cleanSegs acc rest
    else if seg = ".." then cleanSegs acc.tail rest
    else cleanSegs (seg :: acc) rest

/-- The Go `filepath.Join(dir, rel)` (which `Clean`s the result), at the
segment level, for a rooted `dir`. -/
def joinUnder (dir rel : List String) : List String :=
  cleanSegs [] (dir ++ rel)

/-- The destination of one file entry (lines 103–107):
`filepath.Join(solution.Dir, filepath.FromSlash(file))`, at the segment
level. `FromSlash` turns each `/` of the wire path into the local separator,
so the local segments are exactly the `/`-separated wire segments. -/
def destSegs (dir : List String) (file : String) : List String :=
  joinUnder dir (splitChar '/' file)

/-- Modelled from the spec: `workspace.New`, `ws.SolutionPath` and
`solution.Write` live in the `workspace` package of the repository, which is
not under src/. The persisted layout in the spec fixes the solution
directory to workspace-root/track/exercise/solution-id. -/
def solutionDirSegs (workspaceRoot : List String) (track exercise solutionID : String) :
    List String :=
  workspaceRoot ++ [track, exercise, solutionID]

/- ## The per-file fetch loop (cmd/download.go lines 82–112) -/

/-- One per-file GET response: its status code, the value of
`res.Header.Get("Content-Length")` (the empty string when the header is
absent), and the body bytes. -/
structure FileResponse where
  statusCode : Nat
  contentLength : String
  body : String
  deriving DecidableEq

/-- The local filesystem as an association list from path segments to file
content; the most recent write for a path comes first. -/
abbrev FS := List (List String × String)

/-- Content of the file at path `p`, if any. -/
def fsLookup : FS → List String → Option String
  | [], _ => none
  | (q, c) :: rest, p => if q = p then some c else fsLookup rest p

/-- `os.Create` followed by `io.Copy`: (re)create the file at `p` with
content `c`; the new entry shadows any older one. -/
def writeFile (fs : FS) (p : List String) (c : String) : FS :=
  (p, c) :: fs

/-- Embeds the loop of lines 82–112. `fetch file` models
`client.NewRequest`/`client.Do` on `FileDownloadBaseURL ++ file` (the base
is fixed, so the response is keyed by the entry); `none` is a transport
error, which `BailOnError` makes fatal (`none` result). A non-200 response
is fatal too (the `BailOnError` at line 92 fires, making the following
`continue` dead code). A `Content-Length: 0` response is skipped. Otherwise
the body is written at the destination of the entry under the solution
directory. -/
def processFiles (dir : List String) (fetch : String → Option FileResponse) :
    List String → FS → Option FS
  | [], fs => some fs
  | file :: rest, fs =>
    match fetch file with
    | none => none
    | some res =>
      if res.statusCode ≠ 200 then none
      else if res.contentLength = "0" then processFiles dir fetch rest fs
      else processFiles dir fetch rest (writeFile fs (destSegs dir file) res.body)

/-- Responses used by the C1 witness: two distinct entries, both 200 with
non-zero declared length. -/
def witnessFetch (f : String) : Option FileResponse :=
  if f = "two_fer.rb" then some ⟨200, "12", "class TwoFer"⟩
  else if f = "README.md" then some ⟨200, "9", "# Two Fer"⟩
  else none

/- ## Handle lifetimes in the fetch loop (C9) -/

/-- Resource events of the fetch loop: opening/closing the HTTP response
body and the created file of iteration `i`. -/
inductive Ev where
  | openBody (i : Nat)
  | closeBody (i : Nat)
  | openFile (i : Nat)
  | closeFile (i : Nat)
  deriving DecidableEq

/-- Events of the loop body (lines 82–112) on the happy path (every per-file
GET returns 200), driven by the declared content lengths. Iteration `i`
opens the response body (`client.Do`, line 87) and registers
`defer res.Body.Close()` (line 89); unless the length is `"0"` it also opens
the destination file (`os.Create`, line 107) and registers
`defer f.Close()` (line 109). Go runs `defer`s at function return, last in
first out — not at the end of the iteration. Returns the events emitted
during the loop and the deferred closes in their execution order. -/
def loopEvents : Nat → List String → List Ev × List Ev
  | _, [] => ([], [])
  | i, len :: rest =>
    if len = "0" then
      (Ev.openBody i :: (loopEvents (i + 1) rest).1,
       (loopEvents (i + 1) rest).2 ++ [Ev.closeBody i])
    else
      (Ev.openBody i :: Ev.openFile i :: (loopEvents (i + 1) rest).1,
       (loopEvents (i + 1) rest).2 ++ [Ev.closeFile i, Ev.closeBody i])

/-- The full event sequence of `Run` from the start of the loop to the
return of the function: the events of the loop itself, then the deferred
closes. -/
def runTrace (contentLengths : List String) : List Ev :=
  (loopEvents 0 contentLengths).1 ++ (loopEvents 0 contentLengths).2

/-- Position of the first occurrence of `e` (length of the list if absent). -/
def idxOf (e : Ev) : List Ev → Nat
  | [] => 0
  | x :: rest => if x = e then 0 else idxOf e rest + 1

/-- Number of occurrences of `e`. -/
def countEv (e : Ev) : List Ev → Nat
  | [] => 0
  | x :: rest => (if x = e then 1 else 0) + countEv e rest

/-- The property the claim asserts: the response body of each iteration is
closed before the next iteration begins. -/
def closedBeforeNext (contentLengths : List String) : Prop :=
  ∀ i, i + 1 < contentLengths.length →
    idxOf (Ev.closeBody i) (runTrace contentLengths) <
      idxOf (Ev.openBody (i + 1)) (runTrace contentLengths)

/- ## Entry of Run (cmd/download.go lines 30–42) -/

/-- Observable effects of the entry of `Run` (lines 30–42): what was written
to stderr, whether the process was terminated with a non-zero exit, whether
a download request was issued, and whether any directory or file was
created. -/
structure EntryResult where
  stderrOutput : String
  exitedNonZero : Bool
  requestIssued : Bool
  createdFiles : Bool
  deriving DecidableEq

/-- Embeds the guard at lines 33–37: with an empty uuid flag and no
positional argument, `Run` prints the message to stderr and returns; its
continuation (request construction, directory creation, the fetch loop) is
abstracted as "a request is issued and files may be created". -/
def runEntry (uuid : String) (args : List String) : EntryResult :=
  if uuid = "" ∧ args = [] then
    { stderrOutput := "need an exercise name or a solution --uuid"
      exitedNonZero := false
      requestIssued := false
      createdFiles := false }
  else
    { stderrOutput := ""
      exitedNonZero := false
      requestIssued := true
      createdFiles := true }

/- ## String helpers (proved, not assumed) -/

theorem strAppendAssoc (a b c : String) : a ++ b ++ c = a ++ (b ++ c) := by
  apply String.ext
  simp [String.data_append, List.append_assoc]

/- ## C2 and C3: the request URL -/

/-- C2 -- For every invocation with an empty uuid, an exercise name, and a
non-empty track, `newDownloadRequest` builds
`.../download/latest?exercise_id=<exercise>&track_id=<track>`; with an empty
track the `track_id` parameter is omitted entirely while `exercise_id` is
still present. (Hypotheses: the exercise and track strings are unchanged by
query escaping, as every real exercise/track slug is.) -/
theorem request_url_latest (base track exercise : String)
    (hex : queryEscape exercise = exercise) (htr : queryEscape track = track) :
    (track ≠ "" → newDownloadRequestURL base "" track exercise =
      base ++ "/download/latest?exercise_id=" ++ exercise ++ "&track_id=" ++ track) ∧
    (track = "" → newDownloadRequestURL base "" track exercise =
      base ++ "/download/latest?exercise_id=" ++ exercise) := by
  have hkey : strLe "exercise_id" "track_id" = true := by decide
  constructor
  · intro ht
    have hlit1 : ("/download/latest?exercise_id=" : String) =
        "/download/" ++ ("latest" ++ ("?" ++ ("exercise_id" ++ "="))) := by decide
    have hlit2 : ("&track_id=" : String) = "&" ++ ("track_id" ++ "=") := by decide
    simp only [newDownloadRequestURL, apiDownloadURL, encodeQuery, sortByKey, insertByKey,
      joinAmp, ht, hex, htr, hkey, if_pos, if_true, ne_eq, not_false_iff, ite_true,
      List.map_cons, List.map_nil, reduceIte]
    rw [hlit1, hlit2]
    simp only [strAppendAssoc]
  · intro ht
    have hlit1 : ("/download/latest?exercise_id=" : String) =
        "/download/" ++ ("latest" ++ ("?" ++ ("exercise_id" ++ "="))) := by decide
    simp only [newDownloadRequestURL, apiDownloadURL, encodeQuery, sortByKey, insertByKey,
      joinAmp, ht, hex, ne_eq, not_true_eq_false, List.map_cons, List.map_nil, reduceIte]
    rw [hlit1]
    simp only [strAppendAssoc]

/-- C2 witness: at base `https://api`, track `ruby`, exercise `two-fer`,
the built URL is the expected literal. -/
theorem request_url_latest_witness :
    newDownloadRequestURL "https://api" "" "ruby" "two-fer" =
      "https://api/download/latest?exercise_id=two-fer&track_id=ruby" :=
  ((request_url_latest "https://api" "ruby" "two-fer" (by decide) (by decide)).1
    (by decide)).trans (by decide)

/-- C3 -- For every invocation with a non-empty uuid, `newDownloadRequest`
builds `.../download/<uuid>` with no query parameters at all, regardless of
any exercise or track arguments also supplied. -/
theorem request_url_uuid (base uuid track exercise : String) (h : uuid ≠ "") :
    newDownloadRequestURL base uuid track exercise = base ++ "/download/" ++ uuid := by
  simp [newDownloadRequestURL, apiDownloadURL, h]

/-- C3 witness: a concrete uuid yields the bare download URL, with the
exercise and track arguments ignored. -/
theorem request_url_uuid_witness :
    newDownloadRequestURL "https://api" "abc-123" "ruby" "two-fer" =
      "https://api/download/abc-123" :=
  (request_url_uuid "https://api" "abc-123" "ruby" "two-fer" (by decide)).trans (by decide)

/- ## C5 and C6: error discrimination -/

theorem strConcat_map_contains (k id : String) (ids : List String) (h : id ∈ ids) :
    ∃ pre post, strConcat (ids.map fun i => k ++ i) = pre ++ id ++ post := by
  induction ids with
  | nil => cases h
  | cons a rest ih =>
    rcases List.mem_cons.mp h with rfl | hmem
    · exact ⟨k, strConcat (rest.map fun i => k ++ i), rfl⟩
    · obtain ⟨pre, post, hp⟩ := ih hmem
      refine ⟨k ++ a ++ pre, post, ?_⟩
      simp only [List.map_cons, strConcat, hp]
      simp only [strAppendAssoc]

theorem containsStr_append_left (s t sub : String) (h : containsStr t sub) :
    containsStr (s ++ t) sub := by
  obtain ⟨pre, post, hp⟩ := h
  refine ⟨s ++ pre, post, ?_⟩
  simp only [hp, strAppendAssoc]

/-- C5 -- For every top-level non-200 response whose decoded error has type
`track_ambiguous`, the process exits with a non-zero status and every id in
`possible_track_ids` appears in the guidance text emitted to stderr. -/
theorem ambiguous_track_guidance (statusCode : Nat) (binName exercise : String)
    (e : ErrorInfo) (hst : statusCode ≠ 200) (hty : e.errorType = "track_ambiguous") :
    ∃ g, handleTopLevel statusCode binName exercise e = .exitAmbiguous 1 g ∧
      (1 : Nat) ≠ 0 ∧ ∀ id ∈ e.possibleTrackIDs, containsStr g id := by
  refine ⟨ambiguousGuidance binName exercise e.possibleTrackIDs, ?_, one_ne_zero, ?_⟩
  · simp [handleTopLevel, hst, hty]
  · intro id hid
    have h := strConcat_map_contains
      (binName ++ " download " ++ exercise ++ " --track=") id e.possibleTrackIDs hid
    unfold ambiguousGuidance
    exact containsStr_append_left _ _ _ h

/-- C5 witness: status 400, candidates `ruby` and `python`: exit code 1 and
both ids occur in the guidance. -/
theorem ambiguous_track_guidance_witness :
    ∃ g, handleTopLevel 400 "exercism" "two-fer"
        ⟨"track_ambiguous", "ambiguous", ["ruby", "python"]⟩ = .exitAmbiguous 1 g ∧
      (1 : Nat) ≠ 0 ∧ ∀ id ∈ (["ruby", "python"] : List String), containsStr g id :=
  ambiguous_track_guidance 400 "exercism" "two-fer"
    ⟨"track_ambiguous", "ambiguous", ["ruby", "python"]⟩ (by decide) rfl

/-- C6 -- For every top-level non-200 response whose decoded error type is
anything other than `track_ambiguous` (including absent, i.e. the empty
string), the process terminates with a non-zero status and the
`message` field of the error is surfaced exactly as the fatal error text. -/
theorem generic_error_fatal (statusCode : Nat) (binName exercise : String)
    (e : ErrorInfo) (hst : statusCode ≠ 200) (hty : e.errorType ≠ "track_ambiguous") :
    handleTopLevel statusCode binName exercise e = .fatal 1 e.message ∧ (1 : Nat) ≠ 0 := by
  constructor
  · simp [handleTopLevel, hst, hty]
  · exact one_ne_zero

/-- C6 witness: a 404 with an absent error type and message `not found`. -/
theorem generic_error_fatal_witness :
    handleTopLevel 404 "exercism" "two-fer" ⟨"", "not found", []⟩ =
      .fatal 1 "not found" ∧ (1 : Nat) ≠ 0 :=
  generic_error_fatal 404 "exercism" "two-fer" ⟨"", "not found", []⟩
    (by decide) (by decide)

/- ## C7: separator round-trip -/

theorem slashChar_roundtrip (sep c : Char) (h : sep = '/' ∨ c ≠ sep) :
    (if (if c = '/' then sep else c) = sep then '/' else (if c = '/' then sep else c)) = c := by
  by_cases hc : c = '/'
  · subst hc; simp
  · rcases h with rfl | h
    · simp [hc]
    · simp [hc, h]

/-- C7 -- For every written entry, converting the separators of the on-disk
relative path back to the slash-separated wire convention yields exactly the
original `files[i]` string. (Hypothesis: either the local separator is `/`
itself, or the wire path contains no local-separator character — which the
slash-separated wire convention guarantees.) -/
theorem separator_roundtrip (sep : Char) (s : String)
    (h : sep = '/' ∨ ∀ c ∈ s.data, c ≠ sep) :
    toSlash sep (fromSlash sep s) = s := by
  apply String.ext
  simp only [toSlash, fromSlash, List.map_map]
  conv_rhs => rw [← List.map_id s.data]
  apply List.map_congr_left
  intro a ha
  simp only [Function.comp_apply, id_eq]
  apply slashChar_roundtrip
  rcases h with rfl | h
  · exact Or.inl rfl
  · exact Or.inr (h a ha)

/-- C7 witness: with a Windows-style separator, `sub/main.rb` round-trips. -/
theorem separator_roundtrip_witness :
    toSlash '\\' (fromSlash '\\' "sub/main.rb") = "sub/main.rb" :=
  separator_roundtrip '\\' "sub/main.rb" (Or.inr (by decide))

/- ## C8: joined destinations and the solution directory -/

/-- C8 counterexample -- a server-supplied entry made of parent-directory
segments escapes the solution directory: the claim that every joined
destination stays inside it is false. -/
theorem path_escape_counterexample :
    ¬ (["home", "alice", "exercism", "ruby", "two-fer", "sid1"] <+:
        destSegs ["home", "alice", "exercism", "ruby", "two-fer", "sid1"]
          "../../etc/passwd") := by decide

theorem cleanSegs_append (dir : List String) (rel acc : List String)
    (hdir : ∀ s ∈ dir, ¬(s = "" ∨ s = ".") ∧ s ≠ "..") :
    cleanSegs acc (dir ++ rel) = cleanSegs (dir.reverse ++ acc) rel := by
  induction dir generalizing acc with
  | nil => simp
  | cons a d ih =>
    have ha := hdir a (List.mem_cons_self _ _)
    rw [List.cons_append, cleanSegs.eq_def]
    simp only [if_neg ha.1, if_neg ha.2]
    rw [ih (a :: acc) (fun s hs => hdir s (List.mem_cons_of_mem _ hs))]
    simp [List.append_assoc]

theorem cleanSegs_no_parent (rel : List String) (h : ".." ∉ rel) :
    ∀ acc, ∃ t, cleanSegs acc rel = acc.reverse ++ t := by
  induction rel with
  | nil => exact fun acc => ⟨[], by simp [cleanSegs]⟩
  | cons a r ih =>
    intro acc
    have hmem := fun x => h (List.mem_cons.mpr x)
    have ha : ¬(a = "..") := fun e => hmem (Or.inl e.symm)
    have hr : ".." ∉ r := fun m => hmem (Or.inr m)
    by_cases hskip : a = "" ∨ a = "."
    · obtain ⟨t, ht⟩ := ih hr acc
      exact ⟨t, by rw [cleanSegs.eq_def]; simp only [if_pos hskip]; exact ht⟩
    · obtain ⟨t, ht⟩ := ih hr (a :: acc)
      refine ⟨a :: t, ?_⟩
      rw [cleanSegs.eq_def]
      simp only [if_neg hskip, if_neg ha, ht, List.reverse_cons, List.append_assoc,
        List.singleton_append]

/-- C8 amended -- every entry whose wire path contains no parent-directory
(`..`) segment lands inside the solution directory; entries containing `..`
can escape it (see the counterexample). -/
theorem path_join_stays_inside (dir : List String) (file : String)
    (hdir : ∀ s ∈ dir, s ≠ "" ∧ s ≠ "." ∧ s ≠ "..")
    (hfile : ".." ∉ splitChar '/' file) :
    dir <+: destSegs dir file := by
  unfold destSegs joinUnder
  rw [cleanSegs_append dir _ []
    (fun s hs => ⟨not_or.mpr ⟨(hdir s hs).1, (hdir s hs).2.1⟩, (hdir s hs).2.2⟩)]
  obtain ⟨t, ht⟩ := cleanSegs_no_parent _ hfile (dir.reverse ++ [])
  rw [ht]
  simp only [List.append_nil, List.reverse_reverse]
  exact ⟨t, rfl⟩

/-- C8 amended witness: a benign nested entry stays under the solution
directory. -/
theorem path_join_stays_inside_witness :
    (∀ s ∈ ["home", "alice", "exercism", "ruby", "two-fer", "sid1"],
        s ≠ "" ∧ s ≠ "." ∧ s ≠ "..") ∧
    ".." ∉ splitChar '/' "sub/main.rb" ∧
    ["home", "alice", "exercism", "ruby", "two-fer", "sid1"] <+:
      destSegs ["home", "alice", "exercism", "ruby", "two-fer", "sid1"] "sub/main.rb" :=
  ⟨by decide, by decide,
    path_join_stays_inside ["home", "alice", "exercism", "ruby", "two-fer", "sid1"]
      "sub/main.rb" (by decide) (by decide)⟩

/- ## C1 and C4: the fetch loop on disk -/

theorem processFiles_total (dir : List String) (fetch : String → Option FileResponse)
    (files : List String)
    (hok : ∀ f ∈ files, ∃ r, fetch f = some r ∧ r.statusCode = 200 ∧ r.contentLength ≠ "0")
    (hnd : (files.map (destSegs dir)).Nodup) :
    ∀ fs₀ : FS, ∃ fs, processFiles dir fetch files fs₀ = some fs ∧
      fs.map Prod.fst = (files.map (destSegs dir)).reverse ++ fs₀.map Prod.fst ∧
      (∀ k, k ∉ files.map (destSegs dir) → fsLookup fs k = fsLookup fs₀ k) ∧
      (∀ f ∈ files, ∀ r, fetch f = some r →
        fsLookup fs (destSegs dir f) = some r.body) := by
  induction files with
  | nil =>
    intro fs₀
    exact ⟨fs₀, rfl, by simp, fun k _ => rfl, by simp⟩
  | cons f rest ih =>
    intro fs₀
    obtain ⟨r, hr, hst, hcl⟩ := hok f (List.mem_cons_self _ _)
    have hok' : ∀ g ∈ rest, ∃ r, fetch g = some r ∧ r.statusCode = 200 ∧
        r.contentLength ≠ "0" := fun g hg => hok g (List.mem_cons_of_mem _ hg)
    have hnd' : (rest.map (destSegs dir)).Nodup ∧ destSegs dir f ∉ rest.map (destSegs dir) := by
      rw [List.map_cons, List.nodup_cons] at hnd
      exact ⟨hnd.2, hnd.1⟩
    obtain ⟨fs, hrun, hpaths, hpres, hlook⟩ :=
      ih hok' hnd'.1 (writeFile fs₀ (destSegs dir f) r.body)
    refine ⟨fs, ?_, ?_, ?_, ?_⟩
    · rw [processFiles.eq_def]
      simp only [hr, hst, hcl, ne_eq, not_true_eq_false, not_false_eq_true, if_neg, if_false,
        ite_false, reduceIte]
      exact hrun
    · rw [hpaths]
      simp [writeFile, List.append_assoc]
    · intro k hk
      have hk1 : k ≠ destSegs dir f := fun e => hk (by rw [e]; exact List.mem_cons_self _ _)
      have hk2 : k ∉ rest.map (destSegs dir) := fun m => hk (List.mem_cons_of_mem _ m)
      have hne : ¬(destSegs dir f = k) := fun e => hk1 e.symm
      rw [hpres k hk2]
      simp only [writeFile, fsLookup, if_neg hne]
    · intro g hg r' hr'
      rcases List.mem_cons.mp hg with rfl | hgrest
      · have : r' = r := by rw [hr] at hr'; exact (Option.some.inj hr').symm
        subst this
        rw [hpres _ hnd'.2]
        simp [writeFile, fsLookup]
      · exact hlook g hgrest r' hr'

/-- C1 -- For every success envelope whose file list has N entries, each with
a non-zero-content-length 200 response, the fetch loop writes exactly N files
to disk, each at workspace-root/track/exercise/solution-id joined with the
relative path of the entry in local separators, and the content of each file
is byte-identical to the response body. (Hypothesis: the N entries have N
distinct destinations — duplicated wire paths would coalesce on disk.) -/
theorem download_writes_all_files (root : List String) (track exercise sid : String)
    (files : List String) (fetch : String → Option FileResponse)
    (hok : ∀ f ∈ files, ∃ r, fetch f = some r ∧ r.statusCode = 200 ∧ r.contentLength ≠ "0")
    (hnd : (files.map (destSegs (solutionDirSegs root track exercise sid))).Nodup) :
    ∃ fs, processFiles (solutionDirSegs root track exercise sid) fetch files [] = some fs ∧
      fs.length = files.length ∧
      fs.map Prod.fst =
        (files.map (destSegs (solutionDirSegs root track exercise sid))).reverse ∧
      (∀ f ∈ files, ∀ r, fetch f = some r →
        fsLookup fs (destSegs (solutionDirSegs root track exercise sid) f) = some r.body) := by
  obtain ⟨fs, hrun, hpaths, _, hlook⟩ :=
    processFiles_total (solutionDirSegs root track exercise sid) fetch files hok hnd []
  refine ⟨fs, hrun, ?_, by simpa using hpaths, hlook⟩
  have := congrArg List.length hpaths
  simpa using this

/-- C1 witness: both files of a two-entry list land at their destinations
with the fetched bodies. -/
theorem download_writes_all_files_witness :
    ∃ fs, processFiles (solutionDirSegs ["home", "alice", "exercism"] "ruby" "two-fer" "sid1")
        witnessFetch ["two_fer.rb", "README.md"] [] = some fs ∧
      fs.length = (["two_fer.rb", "README.md"] : List String).length ∧
      fs.map Prod.fst =
        ((["two_fer.rb", "README.md"] : List String).map
          (destSegs (solutionDirSegs ["home", "alice", "exercism"] "ruby" "two-fer" "sid1"))).reverse ∧
      (∀ f ∈ (["two_fer.rb", "README.md"] : List String), ∀ r, witnessFetch f = some r →
        fsLookup fs (destSegs (solutionDirSegs ["home", "alice", "exercism"] "ruby" "two-fer" "sid1") f)
          = some r.body) :=
  download_writes_all_files ["home", "alice", "exercism"] "ruby" "two-fer" "sid1"
    ["two_fer.rb", "README.md"] witnessFetch
    (by
      intro f hf
      rcases List.mem_cons.mp hf with rfl | hf
      · exact ⟨_, rfl, rfl, by decide⟩
      · rcases List.mem_cons.mp hf with rfl | hf
        · exact ⟨_, rfl, rfl, by decide⟩
        · cases hf)
    (by decide)

/-- C4 -- For every file entry whose GET response carries `Content-Length: 0`,
no file is created for that entry and the loop proceeds to the next entry:
processing the list from that entry onward equals processing the remaining
entries with the filesystem unchanged. -/
theorem empty_file_skipped (dir : List String) (fetch : String → Option FileResponse)
    (file : String) (rest : List String) (fs : FS) (r : FileResponse)
    (hf : fetch file = some r) (hst : r.statusCode = 200) (hz : r.contentLength = "0") :
    processFiles dir fetch (file :: rest) fs = processFiles dir fetch rest fs := by
  rw [processFiles.eq_def]
  simp [hf, hst, hz]

/-- C4 witness: a zero-length response for the head entry leaves processing
of the tail untouched. -/
theorem empty_file_skipped_witness :
    processFiles ["dir"] (fun _ => some ⟨200, "0", ""⟩) ["empty.txt", "rest.txt"] [] =
      processFiles ["dir"] (fun _ => some ⟨200, "0", ""⟩) ["rest.txt"] [] :=
  empty_file_skipped ["dir"] (fun _ => some ⟨200, "0", ""⟩) "empty.txt" ["rest.txt"] []
    ⟨200, "0", ""⟩ rfl rfl rfl

/- ## C9: handle lifetimes -/

/-- C9 counterexample -- with two non-empty files, the response body of
iteration 0 is closed only by the deferred call at function return, after
iteration 1 has already opened its own handles: handles do accumulate
across the loop. -/
theorem handles_counterexample : ¬ closedBeforeNext ["1", "1"] :=
  fun h => absurd (h 0 (by decide)) (by decide)

theorem countEv_append (e : Ev) (l l' : List Ev) :
    countEv e (l ++ l') = countEv e l + countEv e l' := by
  induction l with
  | nil => simp [countEv]
  | cons x rest ih => simp [countEv, ih, Nat.add_assoc]

theorem loopEvents_defer_no_opens (lens : List String) :
    ∀ k i, countEv (Ev.openBody i) ((loopEvents k lens).2) = 0 ∧
      countEv (Ev.openFile i) ((loopEvents k lens).2) = 0 := by
  induction lens with
  | nil => intro k i; simp [loopEvents, countEv]
  | cons len rest ih =>
    intro k i
    obtain ⟨hb, hf⟩ := ih (k + 1) i
    by_cases hz : len = "0" <;>
      simp [loopEvents, hz, countEv_append, countEv, hb, hf]

theorem loopEvents_counts (lens : List String) :
    ∀ k i, (countEv (Ev.closeBody i) ((loopEvents k lens).2) =
        countEv (Ev.openBody i) ((loopEvents k lens).1)) ∧
      (countEv (Ev.closeFile i) ((loopEvents k lens).2) =
        countEv (Ev.openFile i) ((loopEvents k lens).1)) ∧
      countEv (Ev.closeBody i) ((loopEvents k lens).1) = 0 ∧
      countEv (Ev.closeFile i) ((loopEvents k lens).1) = 0 := by
  induction lens with
  | nil => intro k i; simp [loopEvents, countEv]
  | cons len rest ih =>
    intro k i
    obtain ⟨h1, h2, h3, h4⟩ := ih (k + 1) i
    by_cases hz : len = "0" <;>
      refine ⟨?_, ?_, ?_, ?_⟩ <;>
        simp [loopEvents, hz, countEv_append, countEv, h1, h2, h3, h4,
          Ev.closeBody.injEq, Ev.openBody.injEq, Ev.closeFile.injEq, Ev.openFile.injEq,
          Nat.add_comm]

/-- C9 amended -- every response body and file handle the loop opens is
closed exactly as often as it is opened by the time `Run` returns, but no
close happens during the loop itself (all closes are the deferred calls at
function return): handles are released, yet they accumulate across
iterations instead of being released before the next iteration. -/
theorem handles_closed_at_return (contentLengths : List String) (i : Nat) :
    countEv (Ev.closeBody i) (runTrace contentLengths) =
      countEv (Ev.openBody i) (runTrace contentLengths) ∧
    countEv (Ev.closeFile i) (runTrace contentLengths) =
      countEv (Ev.openFile i) (runTrace contentLengths) ∧
    countEv (Ev.closeBody i) ((loopEvents 0 contentLengths).1) = 0 ∧
    countEv (Ev.closeFile i) ((loopEvents 0 contentLengths).1) = 0 := by
  obtain ⟨h1, h2, h3, h4⟩ := loopEvents_counts contentLengths 0 i
  obtain ⟨hob, hof⟩ := loopEvents_defer_no_opens contentLengths 0 i
  refine ⟨?_, ?_, h3, h4⟩ <;> simp [runTrace, countEv_append, h1, h2, h3, h4, hob, hof]

/- ## C10: missing exercise name and uuid -/

/-- C10 -- With an empty uuid flag and no positional argument, `Run` writes
`need an exercise name or a solution --uuid` to stderr and returns without
issuing any HTTP request, without creating any directory or file, and
without a non-zero exit. -/
theorem missing_args_early_return :
    runEntry "" [] =
      { stderrOutput := "need an exercise name or a solution --uuid"
        exitedNonZero := false
        requestIssued := false
        createdFiles := false } := by
  rfl

end Download
